import Mathlib

/-!
Shallow embedding of `src/scripts/orchestrate.py` (Consensus Coder
Orchestrator) and verification of its specification claims.

Python dictionaries are modelled as insertion-ordered association lists
(`List (String × α)`) with Python assignment semantics: assigning to an
existing key updates the value in place, assigning to a fresh key appends.
The placeholder model-API calls of the source (`phase2_vote` returns three
hard-coded votes for "A") are embedded literally; orchestration is in
addition parameterised by a vote oracle (`voteFn`) standing for the external
vote-collection collaborator that the source stubs out, so that properties
quantified over vote outcomes can be stated.
-/

namespace ConsensusCoder

/-- Embedding of the `Vote` dataclass: a single model's vote on proposals. -/
structure Vote where
  model : String
  choice : String
  confidence : String
  reasoning : String
  concerns : String
  deriving DecidableEq, Repr

/-- Embedding of the proposal payload dictionaries built by the source
(`name`, `description`, `rationale`, `tradeoffs`, `complexity`, `risks`). -/
structure Proposal where
  name : String
  description : String
  rationale : String
  tradeoffs : String
  complexity : String
  risks : String
  deriving DecidableEq, Repr

/-- Embedding of the `Round` dataclass. The source defines it and initialises
`self.rounds = []` but never instantiates it: `orchestrate` records no round
history. -/
structure Round where
  iteration : Nat
  proposals : List (String × Proposal)
  votes : List Vote
  tally : List (String × Nat)
  consensus : Option String
  deriving DecidableEq, Repr

/-- Python `d.get(k)`: lookup in an insertion-ordered dict. -/
def dictGet {α : Type} : List (String × α) → String → Option α
  | [], _ => none
  | (k, v) :: rest, key => if k = key then some v else dictGet rest key

/-- Python `d[k] = v`: update in place when the key is present, else append. -/
def dictSet {α : Type} : List (String × α) → String → α → List (String × α)
  | [], key, val => [(key, val)]
  | (k, v) :: rest, key, val =>
      if k = key then (key, val) :: rest else (k, v) :: dictSet rest key val

/-- Python `list(d.keys())` in insertion order. -/
def dictKeys {α : Type} (d : List (String × α)) : List String :=
  d.map (·.1)

/-- Sum of the values of a tally, i.e. Python `sum(tally.values())`. -/
def tallySum (t : List (String × Nat)) : Nat :=
  (t.map (·.2)).sum

/-- The label generated for a dissent alternative: Python `f"Alt_{iteration}"`. -/
def altName (iteration : Nat) : String :=
  "Alt_" ++ Nat.repr iteration

/-- The alternative proposal payload built by `phase3_dissent`. -/
def altProposal (iteration : Nat) : Proposal :=
  { name := "Alternative " ++ Nat.repr iteration
    description := "..."
    rationale := "..."
    tradeoffs := "..."
    complexity := "Medium"
    risks := "..." }

/-- Embedding of `phase1_opus_proposes`: the hard-coded initial proposal set
with labels "A", "B", "C". -/
def phase1_opus_proposes : List (String × Proposal) :=
  [ ("A", { name := "Approach A", description := "...", rationale := "..."
            tradeoffs := "...", complexity := "Medium", risks := "..." })
  , ("B", { name := "Approach B", description := "...", rationale := "..."
            tradeoffs := "...", complexity := "Low", risks := "..." })
  , ("C", { name := "Approach C", description := "...", rationale := "..."
            tradeoffs := "...", complexity := "High", risks := "..." }) ]

/-- Embedding of `phase2_vote`: the source's placeholder vote collection,
which returns one vote per model in ["Gemini", "Codex", "Opus"], each with
hard-coded choice "A" and confidence "High". -/
def phase2_vote (_proposals : List (String × Proposal)) (_iteration : Nat) :
    List Vote :=
  ["Gemini", "Codex", "Opus"].map fun model =>
    { model := model, choice := "A", confidence := "High"
      reasoning := "...", concerns := "..." }

/-- Loop body of `tally_votes`:
`tally[vote.choice] = tally.get(vote.choice, 0) + 1`. -/
def tallyStep (tally : List (String × Nat)) (vote : Vote) : List (String × Nat) :=
  dictSet tally vote.choice ((dictGet tally vote.choice).getD 0 + 1)

/-- Embedding of `tally_votes`: run the tally loop body over the votes in
order, starting from the empty dict. -/
def tally_votes (votes : List Vote) : List (String × Nat) :=
  votes.foldl tallyStep []

/-- Embedding of `check_consensus`: scan the tally in insertion order and
return the first label whose count equals 3, else `none`. -/
def check_consensus : List (String × Nat) → Option String
  | [] => none
  | (proposal, count) :: rest =>
      if count = 3 then some proposal else check_consensus rest

/-- Embedding of `phase3_dissent`: collect the labels whose count is exactly 1;
if there are none return the proposals unchanged, otherwise insert the
alternative proposal under the label `Alt_<iteration>`. -/
def phase3_dissent (proposals : List (String × Proposal))
    (tally : List (String × Nat)) (iteration : Nat) :
    List (String × Proposal) :=
  let minority_votes := (tally.filter (fun p => p.2 == 1)).map (·.1)
  if minority_votes.isEmpty then proposals
  else dictSet proposals (altName iteration) (altProposal iteration)

/-- Python runtime errors the orchestration can raise:
reading the loop variable `tally` in the escalation branch when the loop body
never ran leaves it unassigned (`UnboundLocalError`). -/
inductive PyError where
  | unboundLocalTally
  deriving DecidableEq, Repr

/-- The terminal dictionary returned by `orchestrate`: either the consensus
payload `{status, iteration, winner, votes}` or the escalation payload
`{status, iterations, final_tally, proposals, awaiting_human_decision}`. -/
inductive RunResult where
  | consensus (iteration : Nat) (winner : String) (votes : List Vote)
  | escalated (iterations : Nat) (final_tally : List (String × Nat))
      (proposals : List (String × Proposal))
      (awaiting_human_decision : Bool)
  deriving DecidableEq, Repr

/-- Configuration of a `ConsensusOrchestrator` instance (`__init__`). The
source also initialises `self.rounds = []`, which no method ever appends to. -/
structure ConsensusOrchestrator where
  problem : String
  context : String
  max_iterations : Nat
  deriving DecidableEq, Repr

/-- The iteration loop of `orchestrate`, one constructor case per remaining
loop iteration. `lastTally` models the Python local variable `tally`, which is
unassigned (`none`) until the first loop iteration runs; the escalation branch
after the loop reads it, raising `UnboundLocalError` when it was never set.
The guard `if winner:` uses Python truthiness: it is False both when
`check_consensus` returned `None` and when it returned the empty string, so
the consensus return fires only for a nonempty winner and the run otherwise
falls through to dissent. Dissent updates the proposal set only when
`iteration < max_iterations - 1`. -/
def orchestrateGo (voteFn : List (String × Proposal) → Nat → List Vote)
    (max_iterations : Nat) :
    List (String × Proposal) → Option (List (String × Nat)) → Nat → Nat →
    Except PyError RunResult
  | proposals, lastTally, _iteration, 0 =>
      match lastTally with
      | none => .error .unboundLocalTally
      | some tally =>
          .ok (.escalated max_iterations tally proposals true)
  | proposals, _lastTally, iteration, remaining + 1 =>
      let votes := voteFn proposals iteration
      let tally := tally_votes votes
      match check_consensus tally with
      | some winner =>
          if winner = "" then
            let nextProposals :=
              if iteration < max_iterations - 1 then
                phase3_dissent proposals tally iteration
              else proposals
            orchestrateGo voteFn max_iterations nextProposals (some tally)
              (iteration + 1) remaining
          else
            .ok (.consensus (iteration + 1) winner votes)
      | none =>
          let nextProposals :=
            if iteration < max_iterations - 1 then
              phase3_dissent proposals tally iteration
            else proposals
          orchestrateGo voteFn max_iterations nextProposals (some tally)
            (iteration + 1) remaining

/-- Embedding of `orchestrate`, parameterised by the vote oracle standing for
the external vote-collection collaborator the source stubs out. -/
def ConsensusOrchestrator.orchestrateWith (o : ConsensusOrchestrator)
    (voteFn : List (String × Proposal) → Nat → List Vote) :
    Except PyError RunResult :=
  orchestrateGo voteFn o.max_iterations phase1_opus_proposes none 0
    o.max_iterations

/-- Embedding of `orchestrate` exactly as the source runs it, with its own
placeholder `phase2_vote`. -/
def ConsensusOrchestrator.orchestrate (o : ConsensusOrchestrator) :
    Except PyError RunResult :=
  o.orchestrateWith phase2_vote

/-- Embedding of `main`: exit with status 1 when the problem argument is
missing (`len(sys.argv) < 2`); otherwise run the orchestrator with the default
`max_iterations = 5` and exit 0 with the run result (an uncaught Python
exception would exit with status 1 and no result). -/
def main (argv : List String) : Nat × Option RunResult :=
  if argv.length < 2 then (1, none)
  else
    let orchestrator : ConsensusOrchestrator :=
      { problem := argv.getD 1 "", context := argv.getD 2 ""
        max_iterations := 5 }
    match orchestrator.orchestrate with
    | .ok result => (0, some result)
    | .error _ => (1, none)

/-- The proposal set entering round `r`, as maintained by the `orchestrate`
loop while no consensus is reached: the initial set for round 0, then the
dissent update applied after each round `r < max_iterations - 1`. -/
def proposalsAt (voteFn : List (String × Proposal) → Nat → List Vote)
    (max_iterations : Nat) : Nat → List (String × Proposal)
  | 0 => phase1_opus_proposes
  | r + 1 =>
      let ps := proposalsAt voteFn max_iterations r
      if r < max_iterations - 1 then
        phase3_dissent ps (tally_votes (voteFn ps r)) r
      else ps

/-- Helper used by witnesses and counterexamples: a vote with the given
model identity and choice. -/
def mkVote (model choice : String) : Vote :=
  { model := model, choice := choice, confidence := "High"
    reasoning := "...", concerns := "..." }

section DictLemmas

variable {α : Type}

theorem dictGet_dictSet (d : List (String × α)) (k key : String) (v : α) :
    dictGet (dictSet d k v) key = if k = key then some v else dictGet d key := by
  induction d with
  | nil => simp [dictSet, dictGet]
  | cons hd tl ih =>
      obtain ⟨k1, v1⟩ := hd
      by_cases h1 : k1 = k
      · subst h1
        by_cases h2 : k1 = key <;> simp [dictSet, dictGet, h2]
      · by_cases h2 : k1 = key
        · subst h2
          have hk : ¬k = k1 := fun h => h1 h.symm
          simp [dictSet, dictGet, h1, hk]
        · simp [dictSet, dictGet, h1, h2, ih]

theorem dictKeys_dictSet_cases (d : List (String × α)) (k : String) (v : α) :
    dictKeys (dictSet d k v) = dictKeys d ∨
      dictKeys (dictSet d k v) = dictKeys d ++ [k] := by
  induction d with
  | nil => right; rfl
  | cons hd tl ih =>
      obtain ⟨k1, v1⟩ := hd
      by_cases h1 : k1 = k
      · left; subst h1; simp [dictSet, dictKeys]
      · rcases ih with h | h
        · left; simp [dictSet, dictKeys, h1]
          simpa [dictKeys] using h
        · right; simp [dictSet, dictKeys, h1]
          simpa [dictKeys] using h

theorem dictKeys_subset_dictSet (d : List (String × α)) (k : String) (v : α) :
    dictKeys d ⊆ dictKeys (dictSet d k v) := by
  rcases dictKeys_dictSet_cases d k v with h | h <;> rw [h]
  · exact fun x hx => hx
  · exact List.subset_append_left _ _

theorem mem_dictKeys_of_mem_dictSet (d : List (String × α)) (k key : String)
    (v : α) (h : key ∈ dictKeys (dictSet d k v)) :
    key ∈ dictKeys d ∨ key = k := by
  rcases dictKeys_dictSet_cases d k v with hc | hc <;> rw [hc] at h
  · exact Or.inl h
  · rcases List.mem_append.mp h with h | h
    · exact Or.inl h
    · exact Or.inr (List.mem_singleton.mp h)

end DictLemmas

theorem tallySum_tallyStep (t : List (String × Nat)) (v : Vote) :
    tallySum (tallyStep t v) = tallySum t + 1 := by
  unfold tallyStep
  generalize v.choice = k
  induction t with
  | nil => simp [dictSet, dictGet, tallySum]
  | cons hd tl ih =>
      obtain ⟨k1, v1⟩ := hd
      by_cases h : k1 = k
      · subst h
        simp [dictSet, dictGet, tallySum]
        omega
      · simp [dictSet, dictGet, tallySum, h] at *
        omega

theorem tallySum_foldl_tallyStep (votes : List Vote) (t : List (String × Nat)) :
    tallySum (votes.foldl tallyStep t) = tallySum t + votes.length := by
  induction votes generalizing t with
  | nil => simp
  | cons v vs ih =>
      simp only [List.foldl_cons, ih, tallySum_tallyStep, List.length_cons]
      omega

theorem tallySum_tally_votes (votes : List Vote) :
    tallySum (tally_votes votes) = votes.length := by
  simpa [tally_votes, tallySum] using tallySum_foldl_tallyStep votes []

theorem dictGet_tallyStep (t : List (String × Nat)) (v : Vote) (l : String) :
    (dictGet (tallyStep t v) l).getD 0 =
      (dictGet t l).getD 0 + (if v.choice = l then 1 else 0) := by
  unfold tallyStep
  rw [dictGet_dictSet]
  by_cases h : v.choice = l <;> simp [h]

theorem dictGet_foldl_tallyStep (votes : List Vote) (t : List (String × Nat))
    (l : String) :
    (dictGet (votes.foldl tallyStep t) l).getD 0 =
      (dictGet t l).getD 0 + votes.countP (fun v => v.choice == l) := by
  induction votes generalizing t with
  | nil => simp
  | cons v vs ih =>
      simp only [List.foldl_cons, ih, dictGet_tallyStep, List.countP_cons]
      by_cases h : v.choice = l
      · simp [h]
        omega
      · simp [h]

/-- C1: `check_consensus` returns a winning label exactly when some entry of
the tally has count equal to 3 (the number of voting agents hard-coded by the
program), and any returned winner is such an entry; no lower count produces a
winner. -/
theorem check_consensus_iff_count_eq_three (t : List (String × Nat)) :
    ((check_consensus t).isSome ↔ ∃ l, (l, 3) ∈ t) ∧
    (∀ w, check_consensus t = some w → (w, 3) ∈ t) := by
  induction t with
  | nil => simp [check_consensus]
  | cons hd tl ih =>
      obtain ⟨p, c⟩ := hd
      by_cases h : c = 3
      · subst h
        have hc : check_consensus ((p, 3) :: tl) = some p := by
          simp [check_consensus]
        refine ⟨?_, ?_⟩
        · constructor
          · intro _
            exact ⟨p, List.mem_cons_self _ _⟩
          · intro _
            rw [hc]
            rfl
        · intro w hw
          rw [hc] at hw
          obtain rfl : p = w := Option.some.inj hw
          exact List.mem_cons_self _ _
      · refine ⟨?_, ?_⟩
        · rw [show check_consensus ((p, c) :: tl) = check_consensus tl from
            by simp [check_consensus, h]]
          rw [ih.1]
          constructor
          · rintro ⟨l, hl⟩
            exact ⟨l, List.mem_cons_of_mem _ hl⟩
          · rintro ⟨l, hl⟩
            rcases List.mem_cons.mp hl with heq | hmem
            · exact absurd (congrArg Prod.snd heq).symm h
            · exact ⟨l, hmem⟩
        · intro w hw
          rw [show check_consensus ((p, c) :: tl) = check_consensus tl from
            by simp [check_consensus, h]] at hw
          exact List.mem_cons_of_mem _ (ih.2 w hw)

/-- Witness for C1 at a concrete tally: count 3 on "B" yields winner "B". -/
theorem check_consensus_iff_count_eq_three_witness :
    check_consensus [("A", 1), ("B", 3)] = some "B" ∧
      ("B", 3) ∈ [("A", 1), ("B", 3)] :=
  ⟨by decide, (check_consensus_iff_count_eq_three [("A", 1), ("B", 3)]).2 "B"
    (by decide)⟩

/-- C4 counterexample: a vote for the label "Z", which is not a key of the
initial proposal set, is counted by `tally_votes` (it appears in the tally
with count 1) rather than rejected as an abstention. -/
theorem unknown_label_vote_is_counted :
    tally_votes [mkVote "Gemini" "Z"] = [("Z", 1)] ∧
      "Z" ∉ dictKeys phase1_opus_proposes :=
  ⟨rfl, by decide⟩

/-- C4 amended: `tally_votes` performs no validation against the proposal
set; every vote is counted under its choice label unconditionally — the tally
count of any label equals the number of votes choosing it, whether or not the
label is a proposal key. -/
theorem tally_counts_every_vote_unconditionally (votes : List Vote)
    (l : String) :
    (dictGet (tally_votes votes) l).getD 0 =
      votes.countP (fun v => v.choice == l) := by
  simpa [tally_votes, dictGet] using dictGet_foldl_tallyStep votes [] l

/-- C5: the tally sums of the program: the placeholder vote phase casts
exactly 3 votes in every round, and for any vote list the tally counts sum to
the number of votes, so each round's tally sums to the configured number of
voting agents (3). -/
theorem tally_sum_equals_vote_count (ps : List (String × Proposal)) (it : Nat)
    (votes : List Vote) :
    tallySum (tally_votes (phase2_vote ps it)) = 3 ∧
      tallySum (tally_votes votes) = votes.length :=
  ⟨by rw [tallySum_tally_votes]; rfl, tallySum_tally_votes votes⟩

/-- C7 counterexample: the tally `[("A", 2)]` contains a minority label in the
claim's sense (count nonzero and strictly below the voter count 3), yet
`phase3_dissent` leaves the proposal set unchanged and inserts no `Alt_0`,
because the source only treats count == 1 as minority. -/
theorem dissent_skips_count_two_minority :
    phase3_dissent phase1_opus_proposes [("A", 2)] 0 = phase1_opus_proposes ∧
    (0 < 2 ∧ 2 < 3) ∧
    altName 0 ∉ dictKeys (phase3_dissent phase1_opus_proposes [("A", 2)] 0) :=
  ⟨rfl, ⟨by decide, by decide⟩, by decide⟩

/-- C7 amended: whenever the tally contains at least one label with count
exactly 1 (the source's minority criterion), `phase3_dissent` inserts the
alternative proposal under the label `Alt_<round>` and keeps every existing
label in the proposal set. -/
theorem dissent_inserts_alt_for_singleton_count
    (ps : List (String × Proposal)) (t : List (String × Nat)) (it : Nat)
    (h : ∃ p ∈ t, p.2 = 1) :
    dictGet (phase3_dissent ps t it) (altName it) = some (altProposal it) ∧
    dictKeys ps ⊆ dictKeys (phase3_dissent ps t it) := by
  obtain ⟨p, hp, h1⟩ := h
  have hmem : p ∈ t.filter (fun q => q.2 == 1) :=
    List.mem_filter.mpr ⟨hp, by simp [h1]⟩
  have hne : ((t.filter (fun q => q.2 == 1)).map (·.1)).isEmpty = false := by
    have hm : p.1 ∈ (t.filter (fun q => q.2 == 1)).map (·.1) :=
      List.mem_map_of_mem (·.1) hmem
    cases hl : (t.filter (fun q => q.2 == 1)).map (·.1) with
    | nil =>
        rw [hl] at hm
        exact absurd hm (List.not_mem_nil _)
    | cons a as => rfl
  rw [show phase3_dissent ps t it =
      dictSet ps (altName it) (altProposal it) from by
        simp [phase3_dissent, hne]]
  refine ⟨?_, dictKeys_subset_dictSet _ _ _⟩
  rw [dictGet_dictSet]
  simp

/-- Witness for C7 amended at a concrete split tally with a count-1 label. -/
theorem dissent_inserts_alt_for_singleton_count_witness :
    dictGet (phase3_dissent phase1_opus_proposes [("A", 2), ("B", 1)] 0)
        (altName 0) = some (altProposal 0) ∧
    dictKeys phase1_opus_proposes ⊆
      dictKeys (phase3_dissent phase1_opus_proposes [("A", 2), ("B", 1)] 0) :=
  dissent_inserts_alt_for_singleton_count phase1_opus_proposes
    [("A", 2), ("B", 1)] 0 ⟨("B", 1), by decide, rfl⟩

theorem orchestrateGo_some_tally_ok
    (voteFn : List (String × Proposal) → Nat → List Vote) (m : Nat) :
    ∀ (r it : Nat) (ps : List (String × Proposal)) (t : List (String × Nat)),
    ∃ res, orchestrateGo voteFn m ps (some t) it r = .ok res ∧
      ((∃ i w vs, res = .consensus i w vs ∧ it < i ∧ i ≤ it + r) ∨
       (∃ ft fps, res = .escalated m ft fps true)) := by
  intro r
  induction r with
  | zero =>
      intro it ps t
      exact ⟨_, rfl, Or.inr ⟨t, ps, rfl⟩⟩
  | succ r ih =>
      intro it ps t
      cases hc : check_consensus (tally_votes (voteFn ps it)) with
      | some winner =>
          by_cases hw : winner = ""
          · subst hw
            obtain ⟨res, hres, hshape⟩ := ih (it + 1)
              (if it < m - 1 then
                phase3_dissent ps (tally_votes (voteFn ps it)) it
              else ps)
              (tally_votes (voteFn ps it))
            refine ⟨res, ?_, ?_⟩
            · simp only [orchestrateGo, hc, eq_self_iff_true, if_true]
              exact hres
            · rcases hshape with ⟨i, w, vs, hres2, h1, h2⟩ | h
              · exact Or.inl ⟨i, w, vs, hres2, by omega, by omega⟩
              · exact Or.inr h
          · refine ⟨.consensus (it + 1) winner (voteFn ps it), ?_,
              Or.inl ⟨it + 1, winner, voteFn ps it, rfl, by omega, by omega⟩⟩
            simp [orchestrateGo, hc, hw]
      | none =>
          obtain ⟨res, hres, hshape⟩ := ih (it + 1)
            (if it < m - 1 then
              phase3_dissent ps (tally_votes (voteFn ps it)) it
            else ps)
            (tally_votes (voteFn ps it))
          refine ⟨res, ?_, ?_⟩
          · simp only [orchestrateGo, hc]
            exact hres
          · rcases hshape with ⟨i, w, vs, hres2, h1, h2⟩ | h
            · exact Or.inl ⟨i, w, vs, hres2, by omega, by omega⟩
            · exact Or.inr h

/-- C2: for every problem, context, vote oracle and `max_iterations ≥ 1`,
`orchestrate` terminates with a result: either consensus, reached in some
round of index at most `max_iterations - 1` (so the reported 1-based
iteration is between 1 and `max_iterations`), or escalation reporting exactly
`max_iterations` exhausted rounds; the loop never runs more than
`max_iterations` iterations. -/
theorem orchestrate_terminates (o : ConsensusOrchestrator)
    (voteFn : List (String × Proposal) → Nat → List Vote)
    (h : 1 ≤ o.max_iterations) :
    ∃ res, o.orchestrateWith voteFn = .ok res ∧
      ((∃ i w vs, res = .consensus i w vs ∧ 1 ≤ i ∧ i ≤ o.max_iterations) ∨
       (∃ ft fps, res = .escalated o.max_iterations ft fps true)) := by
  obtain ⟨m, hm⟩ : ∃ m, o.max_iterations = m + 1 :=
    ⟨o.max_iterations - 1, by omega⟩
  unfold ConsensusOrchestrator.orchestrateWith
  rw [hm]
  cases hc : check_consensus (tally_votes (voteFn phase1_opus_proposes 0)) with
  | some winner =>
      by_cases hw : winner = ""
      · subst hw
        obtain ⟨res, hres, hshape⟩ := orchestrateGo_some_tally_ok voteFn
          (m + 1) m 1
          (if 0 < m + 1 - 1 then
            phase3_dissent phase1_opus_proposes
              (tally_votes (voteFn phase1_opus_proposes 0)) 0
          else phase1_opus_proposes)
          (tally_votes (voteFn phase1_opus_proposes 0))
        refine ⟨res, ?_, ?_⟩
        · simp only [orchestrateGo, hc, eq_self_iff_true, if_true]
          exact hres
        · rcases hshape with ⟨i, w, vs, hres2, h1, h2⟩ | hh
          · exact Or.inl ⟨i, w, vs, hres2, by omega, by omega⟩
          · exact Or.inr hh
      · refine ⟨.consensus 1 winner (voteFn phase1_opus_proposes 0), ?_,
          Or.inl ⟨1, winner, voteFn phase1_opus_proposes 0, rfl, le_refl 1,
            by omega⟩⟩
        simp [orchestrateGo, hc, hw]
  | none =>
      obtain ⟨res, hres, hshape⟩ := orchestrateGo_some_tally_ok voteFn (m + 1)
        m 1
        (if 0 < m + 1 - 1 then
          phase3_dissent phase1_opus_proposes
            (tally_votes (voteFn phase1_opus_proposes 0)) 0
        else phase1_opus_proposes)
        (tally_votes (voteFn phase1_opus_proposes 0))
      refine ⟨res, ?_, ?_⟩
      · simp only [orchestrateGo, hc]
        exact hres
      · rcases hshape with ⟨i, w, vs, hres2, h1, h2⟩ | hh
        · exact Or.inl ⟨i, w, vs, hres2, by omega, by omega⟩
        · exact Or.inr hh

/-- Witness for C2: the source's own configuration (default 5 iterations and
its placeholder vote phase) terminates in consensus or escalation. -/
theorem orchestrate_terminates_witness :
    ∃ res, (ConsensusOrchestrator.mk "p" "" 5).orchestrateWith phase2_vote =
        .ok res ∧
      ((∃ i w vs, res = .consensus i w vs ∧ 1 ≤ i ∧ i ≤ 5) ∨
       (∃ ft fps, res = .escalated 5 ft fps true)) :=
  orchestrate_terminates (ConsensusOrchestrator.mk "p" "" 5) phase2_vote
    (by decide)

theorem tally_votes_three_same (v1 v2 v3 : Vote) (L : String)
    (h1 : v1.choice = L) (h2 : v2.choice = L) (h3 : v3.choice = L) :
    tally_votes [v1, v2, v3] = [(L, 3)] := by
  simp [tally_votes, tallyStep, dictSet, dictGet, h1, h2, h3]

/-- Vote list in which every agent chooses the empty-string label. -/
def votesEmptyLabel : List Vote :=
  [mkVote "Gemini" "", mkVote "Codex" "", mkVote "Opus" ""]

/-- Vote oracle that casts the empty-string votes in every round. -/
def voteEmptyLabel (_proposals : List (String × Proposal)) (_iteration : Nat) :
    List Vote :=
  votesEmptyLabel

/-- C8 counterexample: all three round-0 votes choose the same label, the
empty string, and the tally reaches count 3 on it — yet the run does not
return consensus: Python's `if winner:` is falsy on the empty string, so the
program falls through and escalates. -/
theorem empty_label_unanimity_escalates :
    (∀ v ∈ voteEmptyLabel phase1_opus_proposes 0, v.choice = "") ∧
    (voteEmptyLabel phase1_opus_proposes 0).length = 3 ∧
    (ConsensusOrchestrator.mk "p" "" 1).orchestrateWith voteEmptyLabel =
      .ok (.escalated 1 [("", 3)] phase1_opus_proposes true) :=
  ⟨by decide, rfl, rfl⟩

/-- C8 amended: when the three votes of round 0 all choose the same nonempty
label, the run returns consensus on that label with reported iteration 1 and
the full list of that round's votes (for the empty-string label the truthiness
guard skips the consensus return instead). -/
theorem round0_unanimity_consensus (o : ConsensusOrchestrator)
    (voteFn : List (String × Proposal) → Nat → List Vote) (L : String)
    (hm : 1 ≤ o.max_iterations) (hL : L ≠ "")
    (hlen : (voteFn phase1_opus_proposes 0).length = 3)
    (hall : ∀ v ∈ voteFn phase1_opus_proposes 0, v.choice = L) :
    o.orchestrateWith voteFn =
      .ok (.consensus 1 L (voteFn phase1_opus_proposes 0)) := by
  obtain ⟨m, hmm⟩ : ∃ m, o.max_iterations = m + 1 :=
    ⟨o.max_iterations - 1, by omega⟩
  unfold ConsensusOrchestrator.orchestrateWith
  rw [hmm]
  obtain ⟨v1, v2, v3, hl⟩ := List.length_eq_three.mp hlen
  have htally : tally_votes (voteFn phase1_opus_proposes 0) = [(L, 3)] := by
    rw [hl]
    exact tally_votes_three_same v1 v2 v3 L
      (hall v1 (by rw [hl]; simp)) (hall v2 (by rw [hl]; simp))
      (hall v3 (by rw [hl]; simp))
  simp [orchestrateGo, htally, check_consensus, hL]

/-- Vote list realising spec Scenario A: all three agents choose "B". -/
def votesAllB : List Vote :=
  [mkVote "Gemini" "B", mkVote "Codex" "B", mkVote "Opus" "B"]

/-- Vote oracle that always returns the Scenario A votes. -/
def voteAllB (_proposals : List (String × Proposal)) (_iteration : Nat) :
    List Vote :=
  votesAllB

/-- Witness for C8 at spec Scenario A: three votes for "B" in round 0 give
consensus on "B" at iteration 1. -/
theorem round0_unanimity_consensus_witness :
    (ConsensusOrchestrator.mk "p" "" 5).orchestrateWith voteAllB =
      .ok (.consensus 1 "B" (voteAllB phase1_opus_proposes 0)) :=
  round0_unanimity_consensus (ConsensusOrchestrator.mk "p" "" 5) voteAllB "B"
    (by decide) (by decide) rfl (by decide)

/-- C9: the CLI entry point exits with status 1 (non-zero) when the required
problem argument is missing, and with status 0 carrying a terminal run result
(consensus or escalated) whenever the problem argument is present. -/
theorem main_exit_status (argv : List String) :
    (argv.length < 2 → main argv = (1, none)) ∧
    (2 ≤ argv.length →
      (main argv).1 = 0 ∧
      ∃ res, (main argv).2 = some res ∧
        ((∃ i w vs, res = .consensus i w vs) ∨
         (∃ n t ps b, res = .escalated n t ps b))) := by
  constructor
  · intro h
    simp [main, h]
  · intro h
    have h2 : ¬argv.length < 2 := by omega
    have hrun : (ConsensusOrchestrator.mk (argv[1]?.getD "") (argv[2]?.getD "")
        5).orchestrate =
        .ok (.consensus 1 "A" (phase2_vote phase1_opus_proposes 0)) := rfl
    refine ⟨?_, .consensus 1 "A" (phase2_vote phase1_opus_proposes 0), ?_, ?_⟩
    · simp [main, h2, hrun]
    · simp [main, h2, hrun]
    · exact Or.inl ⟨1, "A", phase2_vote phase1_opus_proposes 0, rfl⟩

/-- Witness for C9: one invocation with the problem argument missing exits 1,
one with it present exits 0 with a terminal result. -/
theorem main_exit_status_witness :
    main ["orchestrate.py"] = (1, none) ∧
      ((main ["orchestrate.py", "problem"]).1 = 0 ∧
       ∃ res, (main ["orchestrate.py", "problem"]).2 = some res ∧
         ((∃ i w vs, res = .consensus i w vs) ∨
          (∃ n t ps b, res = .escalated n t ps b))) :=
  ⟨(main_exit_status ["orchestrate.py"]).1 (by decide),
   (main_exit_status ["orchestrate.py", "problem"]).2 (by decide)⟩

/-- C10: with `max_iterations = 0` the iteration loop never runs, so the
escalation branch reads the never-assigned local `tally` and the call fails
with an `UnboundLocalError` instead of returning an escalated result; this
holds for any vote oracle and in particular for the source's own
`phase2_vote`. -/
theorem zero_max_iterations_raises (p c : String)
    (voteFn : List (String × Proposal) → Nat → List Vote) :
    (ConsensusOrchestrator.mk p c 0).orchestrateWith voteFn =
        .error .unboundLocalTally ∧
      (ConsensusOrchestrator.mk p c 0).orchestrate =
        .error .unboundLocalTally :=
  ⟨rfl, rfl⟩

/-- Votes splitting 2-1 on "A"/"B" (spec Scenario B round 0). -/
def votesAAB : List Vote :=
  [mkVote "Gemini" "A", mkVote "Codex" "A", mkVote "Opus" "B"]

/-- Votes splitting 1-2 on "A"/"B". -/
def votesABB : List Vote :=
  [mkVote "Gemini" "A", mkVote "Codex" "B", mkVote "Opus" "B"]

/-- Vote oracle casting the 2-1 split in round 0, then the 1-2 split. -/
def voteHistoryOne (_proposals : List (String × Proposal)) (iteration : Nat) :
    List Vote :=
  if iteration = 0 then votesAAB else votesABB

/-- Vote oracle casting the 1-2 split in every round. -/
def voteHistoryTwo (_proposals : List (String × Proposal)) (_iteration : Nat) :
    List Vote :=
  votesABB

/-- C3 counterexample: two runs whose round-0 votes differ produce the very
same fully-evaluated escalated result, whose fields are only the iteration
count, final tally, proposal set and awaiting flag; hence the escalated
result cannot contain the round-by-round vote record. -/
theorem escalated_result_lacks_round_history :
    (ConsensusOrchestrator.mk "p" "" 2).orchestrateWith voteHistoryOne =
      .ok (.escalated 2 [("A", 1), ("B", 2)]
        (phase1_opus_proposes ++ [(altName 0, altProposal 0)]) true) ∧
    (ConsensusOrchestrator.mk "p" "" 2).orchestrateWith voteHistoryTwo =
      .ok (.escalated 2 [("A", 1), ("B", 2)]
        (phase1_opus_proposes ++ [(altName 0, altProposal 0)]) true) ∧
    voteHistoryOne phase1_opus_proposes 0 ≠
      voteHistoryTwo phase1_opus_proposes 0 := by
  refine ⟨rfl, rfl, by decide⟩

theorem orchestrateGo_no_consensus_escalates
    (voteFn : List (String × Proposal) → Nat → List Vote) (m : Nat)
    (hnc : ∀ ps it, check_consensus (tally_votes (voteFn ps it)) = none) :
    ∀ (r it : Nat) (lt : Option (List (String × Nat))),
      it + r = m → 1 ≤ r →
      orchestrateGo voteFn m (proposalsAt voteFn m it) lt it r =
        .ok (.escalated m
          (tally_votes (voteFn (proposalsAt voteFn m (m - 1)) (m - 1)))
          (proposalsAt voteFn m (m - 1)) true) := by
  intro r
  induction r with
  | zero =>
      intro it lt h h1
      omega
  | succ r ih =>
      intro it lt h h1
      by_cases hr : r = 0
      · subst hr
        have hit : it = m - 1 := by omega
        subst hit
        simp [orchestrateGo, hnc]
      · have hlt : it < m - 1 := by omega
        have hstep : proposalsAt voteFn m (it + 1) =
            phase3_dissent (proposalsAt voteFn m it)
              (tally_votes (voteFn (proposalsAt voteFn m it) it)) it := by
          simp [proposalsAt, hlt]
        simp only [orchestrateGo, hnc, hlt, if_pos]
        rw [← hstep]
        exact ih (it + 1) (some (tally_votes (voteFn (proposalsAt voteFn m it)
          it))) (by omega) (by omega)

/-- C3 amended: whenever no round reaches consensus and `max_iterations ≥ 1`,
the run terminates escalated and the escalated result carries the exhausted
iteration count, the final round's tally, the full accumulated proposal set
and the awaiting flag — but no round-by-round vote history (the source never
populates its `rounds` list and the escalation payload has no votes field). -/
theorem escalation_carries_final_tally_and_proposals
    (o : ConsensusOrchestrator)
    (voteFn : List (String × Proposal) → Nat → List Vote)
    (hm : 1 ≤ o.max_iterations)
    (hnc : ∀ ps it, check_consensus (tally_votes (voteFn ps it)) = none) :
    o.orchestrateWith voteFn =
      .ok (.escalated o.max_iterations
        (tally_votes (voteFn
          (proposalsAt voteFn o.max_iterations (o.max_iterations - 1))
          (o.max_iterations - 1)))
        (proposalsAt voteFn o.max_iterations (o.max_iterations - 1))
        true) := by
  unfold ConsensusOrchestrator.orchestrateWith
  have h0 : phase1_opus_proposes = proposalsAt voteFn o.max_iterations 0 := rfl
  rw [h0]
  exact orchestrateGo_no_consensus_escalates voteFn o.max_iterations hnc
    o.max_iterations 0 none (by omega) hm

/-- Witness for C3 amended: the persistent 1-2 split escalates after 2 rounds
with the final tally and accumulated proposal set in the result. -/
theorem escalation_carries_final_tally_and_proposals_witness :
    (1 : Nat) ≤ 2 ∧
    (ConsensusOrchestrator.mk "p" "" 2).orchestrateWith voteHistoryTwo =
      .ok (.escalated 2
        (tally_votes (voteHistoryTwo (proposalsAt voteHistoryTwo 2 1) 1))
        (proposalsAt voteHistoryTwo 2 1) true) :=
  ⟨by decide,
   escalation_carries_final_tally_and_proposals
     (ConsensusOrchestrator.mk "p" "" 2) voteHistoryTwo (by decide)
     (fun _ _ => rfl)⟩

theorem digitChar_injOn :
    ∀ a, a < 10 → ∀ b, b < 10 → Nat.digitChar a = Nat.digitChar b → a = b := by
  decide

theorem toDigitsCore_eq_digits :
    ∀ (fuel n : Nat) (acc : List Char), 0 < n → n < fuel →
      Nat.toDigitsCore 10 fuel n acc =
        ((Nat.digits 10 n).map Nat.digitChar).reverse ++ acc := by
  intro fuel
  induction fuel with
  | zero =>
      intro n acc h0 hf
      omega
  | succ f ih =>
      intro n acc h0 hf
      have hd : Nat.digits 10 n = n % 10 :: Nat.digits 10 (n / 10) :=
        Nat.digits_def' (by norm_num) h0
      by_cases hq : n / 10 = 0
      · simp [Nat.toDigitsCore, hq, hd]
      · have hrec : Nat.toDigitsCore 10 (f + 1) n acc =
            Nat.toDigitsCore 10 f (n / 10) (Nat.digitChar (n % 10) :: acc) := by
          simp [Nat.toDigitsCore, hq]
        have hdiv : n / 10 < n := Nat.div_lt_self h0 (by norm_num)
        rw [hrec, ih (n / 10) _ (Nat.pos_of_ne_zero hq) (by omega), hd]
        simp

theorem toDigits_eq_digits (n : Nat) (h0 : 0 < n) :
    Nat.toDigits 10 n = ((Nat.digits 10 n).map Nat.digitChar).reverse := by
  simpa [Nat.toDigits] using
    toDigitsCore_eq_digits (n + 1) n [] h0 (by omega)

theorem map_digitChar_inj :
    ∀ (l1 l2 : List Nat), (∀ x ∈ l1, x < 10) → (∀ x ∈ l2, x < 10) →
      l1.map Nat.digitChar = l2.map Nat.digitChar → l1 = l2 := by
  intro l1
  induction l1 with
  | nil =>
      intro l2 _ _ h
      cases l2 with
      | nil => rfl
      | cons b l2t => simp at h
  | cons a l1t ih =>
      intro l2 h1 h2 h
      cases l2 with
      | nil => simp at h
      | cons b l2t =>
          simp only [List.map_cons, List.cons.injEq] at h
          have ha : a = b :=
            digitChar_injOn a (h1 a (by simp)) b (h2 b (by simp)) h.1
          rw [ha, ih l2t (fun x hx => h1 x (by simp [hx]))
            (fun x hx => h2 x (by simp [hx])) h.2]

theorem repr_injective (m n : Nat) (h : Nat.repr m = Nat.repr n) : m = n := by
  have hdig : Nat.toDigits 10 m = Nat.toDigits 10 n := by
    simpa [Nat.repr, List.asString_inj] using h
  rcases Nat.eq_zero_or_pos m with hm | hm
  · rcases Nat.eq_zero_or_pos n with hn | hn
    · omega
    · exfalso
      subst hm
      rw [toDigits_eq_digits n hn] at hdig
      have hmap : (Nat.digits 10 n).map Nat.digitChar = ['0'] := by
        rw [← List.reverse_reverse (List.map Nat.digitChar (Nat.digits 10 n)),
          ← hdig]
        rfl
      rcases hD : Nat.digits 10 n with _ | ⟨d, tl⟩
      · rw [hD] at hmap
        simp at hmap
      · rcases tl with _ | ⟨d2, tl2⟩
        · rw [hD] at hmap
          simp only [List.map_cons, List.map_nil, List.cons.injEq] at hmap
          have hd10 : d < 10 :=
            Nat.digits_lt_base (by norm_num)
              (by rw [hD]; exact List.mem_singleton.mpr rfl)
          have hd0 : d = 0 :=
            digitChar_injOn d hd10 0 (by norm_num) (by simpa using hmap.1)
          have hofd := Nat.ofDigits_digits 10 n
          rw [hD] at hofd
          simp [Nat.ofDigits, hd0] at hofd
          omega
        · rw [hD] at hmap
          simp at hmap
  · rcases Nat.eq_zero_or_pos n with hn | hn
    · exfalso
      subst hn
      rw [toDigits_eq_digits m hm] at hdig
      have hmap : (Nat.digits 10 m).map Nat.digitChar = ['0'] := by
        rw [← List.reverse_reverse (List.map Nat.digitChar (Nat.digits 10 m)),
          hdig]
        rfl
      rcases hD : Nat.digits 10 m with _ | ⟨d, tl⟩
      · rw [hD] at hmap
        simp at hmap
      · rcases tl with _ | ⟨d2, tl2⟩
        · rw [hD] at hmap
          simp only [List.map_cons, List.map_nil, List.cons.injEq] at hmap
          have hd10 : d < 10 :=
            Nat.digits_lt_base (by norm_num)
              (by rw [hD]; exact List.mem_singleton.mpr rfl)
          have hd0 : d = 0 :=
            digitChar_injOn d hd10 0 (by norm_num) (by simpa using hmap.1)
          have hofd := Nat.ofDigits_digits 10 m
          rw [hD] at hofd
          simp [Nat.ofDigits, hd0] at hofd
          omega
        · rw [hD] at hmap
          simp at hmap
    · rw [toDigits_eq_digits m hm, toDigits_eq_digits n hn] at hdig
      have hmap := List.reverse_injective hdig
      have hdigits : Nat.digits 10 m = Nat.digits 10 n :=
        map_digitChar_inj (Nat.digits 10 m) (Nat.digits 10 n)
          (fun x hx => Nat.digits_lt_base (by norm_num) hx)
          (fun x hx => Nat.digits_lt_base (by norm_num) hx) hmap
      exact Nat.digits_inj_iff.mp hdigits

theorem altName_injective (i j : Nat) (h : altName i = altName j) : i = j := by
  apply repr_injective
  apply String.ext
  have hdata := congrArg String.data h
  simp only [altName, String.data_append] at hdata
  exact List.append_cancel_left hdata

theorem altName_ne_short (i : Nat) (s : String) (hs : s.data.length = 1) :
    altName i ≠ s := by
  intro h
  have hd : (altName i).data.length = s.data.length := by rw [h]
  rw [hs] at hd
  simp [altName, String.data_append, List.length_append] at hd

theorem phase3_dissent_cases (ps : List (String × Proposal))
    (t : List (String × Nat)) (it : Nat) :
    phase3_dissent ps t it = ps ∨
      phase3_dissent ps t it = dictSet ps (altName it) (altProposal it) := by
  unfold phase3_dissent
  by_cases h : ((t.filter (fun p => p.2 == 1)).map (·.1)).isEmpty
  · left
    simp [h]
  · right
    simp [h]

theorem proposalsAt_succ_cases
    (voteFn : List (String × Proposal) → Nat → List Vote) (m r : Nat) :
    proposalsAt voteFn m (r + 1) = proposalsAt voteFn m r ∨
      proposalsAt voteFn m (r + 1) =
        dictSet (proposalsAt voteFn m r) (altName r) (altProposal r) := by
  by_cases hr : r < m - 1
  · rw [show proposalsAt voteFn m (r + 1) =
        phase3_dissent (proposalsAt voteFn m r)
          (tally_votes (voteFn (proposalsAt voteFn m r) r)) r from by
      simp [proposalsAt, hr]]
    exact phase3_dissent_cases _ _ _
  · left
    simp [proposalsAt, hr]

theorem proposalsAt_keys_bounded
    (voteFn : List (String × Proposal) → Nat → List Vote) (m : Nat) :
    ∀ (r : Nat) (l : String), l ∈ dictKeys (proposalsAt voteFn m r) →
      l = "A" ∨ l = "B" ∨ l = "C" ∨ ∃ j, j < r ∧ l = altName j := by
  intro r
  induction r with
  | zero =>
      intro l hl
      have habc : l = "A" ∨ l = "B" ∨ l = "C" := by
        simpa [proposalsAt, phase1_opus_proposes, dictKeys] using hl
      rcases habc with h | h | h
      · exact Or.inl h
      · exact Or.inr (Or.inl h)
      · exact Or.inr (Or.inr (Or.inl h))
  | succ r ih =>
      intro l hl
      rcases proposalsAt_succ_cases voteFn m r with hc | hc
      · rw [hc] at hl
        rcases ih l hl with h | h | h | ⟨j, hj, h⟩
        · exact Or.inl h
        · exact Or.inr (Or.inl h)
        · exact Or.inr (Or.inr (Or.inl h))
        · exact Or.inr (Or.inr (Or.inr ⟨j, by omega, h⟩))
      · rw [hc] at hl
        rcases mem_dictKeys_of_mem_dictSet _ _ _ _ hl with h | h
        · rcases ih l h with h | h | h | ⟨j, hj, h⟩
          · exact Or.inl h
          · exact Or.inr (Or.inl h)
          · exact Or.inr (Or.inr (Or.inl h))
          · exact Or.inr (Or.inr (Or.inr ⟨j, by omega, h⟩))
        · exact Or.inr (Or.inr (Or.inr ⟨r, by omega, h⟩))

theorem altName_fresh
    (voteFn : List (String × Proposal) → Nat → List Vote) (m r : Nat) :
    altName r ∉ dictKeys (proposalsAt voteFn m r) := by
  intro hmem
  rcases proposalsAt_keys_bounded voteFn m r (altName r) hmem with
    h | h | h | ⟨j, hj, h⟩
  · exact altName_ne_short r "A" rfl h
  · exact altName_ne_short r "B" rfl h
  · exact altName_ne_short r "C" rfl h
  · have := altName_injective r j h
    omega

/-- C6: along any run the proposal set is append-only — every label present
at round `r` is still present at round `r + 1` with its proposal unchanged
(the dissent step never removes or replaces an existing proposal) — and the
generated alternative labels `Alt_<round>` are pairwise distinct across
rounds. -/
theorem proposal_set_append_only
    (voteFn : List (String × Proposal) → Nat → List Vote) (m r : Nat) :
    dictKeys (proposalsAt voteFn m r) ⊆
        dictKeys (proposalsAt voteFn m (r + 1)) ∧
    (∀ l, l ∈ dictKeys (proposalsAt voteFn m r) →
      dictGet (proposalsAt voteFn m (r + 1)) l =
        dictGet (proposalsAt voteFn m r) l) ∧
    (∀ i j : Nat, i ≠ j → altName i ≠ altName j) := by
  refine ⟨?_, ?_, fun i j hij h => hij (altName_injective i j h)⟩
  · rcases proposalsAt_succ_cases voteFn m r with hc | hc <;> rw [hc]
    · exact fun x hx => hx
    · exact dictKeys_subset_dictSet _ _ _
  · intro l hl
    rcases proposalsAt_succ_cases voteFn m r with hc | hc
    · rw [hc]
    · rw [hc, dictGet_dictSet]
      have hne : altName r ≠ l := by
        intro h
        exact altName_fresh voteFn m r (h ▸ hl)
      simp [hne]

/-- Witness for C6: in a concrete run, label "A" survives from round 0 to
round 1 with its proposal unchanged, and `Alt_0` differs from `Alt_1`. -/
theorem proposal_set_append_only_witness :
    dictGet (proposalsAt phase2_vote 2 1) "A" =
        dictGet (proposalsAt phase2_vote 2 0) "A" ∧
      altName 0 ≠ altName 1 :=
  ⟨(proposal_set_append_only phase2_vote 2 0).2.1 "A" (by decide),
   (proposal_set_append_only phase2_vote 2 0).2.2 0 1 (by decide)⟩

end ConsensusCoder
